import Mathlib

/-!
Verification of the battery-simulation dashboards.

The definitions below are a shallow embedding of the two source files
`battery_dashboard.py` and `battery2.py`.  Python floats are modelled as
exact rationals (`ℚ`), Python lists as Lean `List`s, and the Streamlit
session state as an explicit record that the per-interaction operations
transform.
-/

namespace BatteryDashboard

/-- Operating mode of a cell, from the `mode_options` list
`['Charging', 'Discharging', 'Idle']` in `battery_dashboard.py`. -/
inductive Mode
  | Charging
  | Discharging
  | Idle
deriving DecidableEq

/-- One history entry, as built by the `Update Now` branch of
`battery_dashboard.py` (lines 111-118): a timestamp plus the five
per-cell reading lists. -/
structure MetricSample where
  timestamp : ℚ
  voltages : List ℚ
  currents : List ℚ
  temperatures : List ℚ
  capacities : List ℚ
  modes : List Mode
deriving DecidableEq

/-- The mutable session state of `battery_dashboard.py`:
`st.session_state.history`, `st.session_state.max_history`, and the two
sidebar alert thresholds. -/
structure DashState where
  history : List MetricSample
  max_history : ℕ
  temp_threshold : ℚ
  volt_threshold : ℚ
deriving DecidableEq

/-- Python's negative-index slice `l[-m:]`: for `m = 0` it returns the
whole list (`l[-0:] = l[0:]`), otherwise the last `min m (length l)`
elements. -/
def pySlidingSuffix (m : ℕ) (l : List α) : List α :=
  if m = 0 then l else l.drop (l.length - m)

/-- The `Update Now` branch of `battery_dashboard.py` (lines 110-120):
append the sample to `history`, then if the length exceeds
`max_history`, keep `history[-max_history:]`. -/
def updateNow (s : DashState) (sample : MetricSample) : DashState :=
  let h := s.history ++ [sample]
  if h.length > s.max_history then
    { s with history := pySlidingSuffix s.max_history h }
  else
    { s with history := h }

/-- A sequence of `Update Now` triggers, in order. -/
def appendAll (s : DashState) (samples : List MetricSample) : DashState :=
  samples.foldl updateNow s

/-- Sample with a given timestamp and no cells; used for concrete
instantiations. -/
def mkS (n : ℚ) : MetricSample :=
  ⟨n, [], [], [], [], []⟩

lemma updateNow_max_history (s : DashState) (x : MetricSample) :
    (updateNow s x).max_history = s.max_history := by
  unfold updateNow
  dsimp only
  split <;> rfl

lemma updateNow_history_length_le (s : DashState) (x : MetricSample)
    (hm : 1 ≤ s.max_history) :
    (updateNow s x).history.length ≤ s.max_history := by
  unfold updateNow pySlidingSuffix
  dsimp only
  split
  · rw [if_neg (by omega)]
    simp only [List.length_drop]
    omega
  · simp only [List.length_append, List.length_singleton] at *
    omega

lemma appendAll_max_history (l : List MetricSample) (s : DashState) :
    (appendAll s l).max_history = s.max_history := by
  induction l generalizing s with
  | nil => rfl
  | cons x t ih =>
      show (appendAll (updateNow s x) t).max_history = s.max_history
      rw [ih, updateNow_max_history]

lemma appendAll_history_drop (l : List MetricSample) (s : DashState)
    (hm : 1 ≤ s.max_history) (hlen : s.history.length ≤ s.max_history) :
    (appendAll s l).history =
      (s.history ++ l).drop (s.history.length + l.length - s.max_history) := by
  induction l generalizing s with
  | nil =>
      have h0 : s.history.length + ([] : List MetricSample).length
          - s.max_history = 0 := by
        simp only [List.length_nil]; omega
      rw [h0]
      simp [appendAll]
  | cons x t ih =>
      show (appendAll (updateNow s x) t).history = _
      by_cases hfits : s.history.length + 1 ≤ s.max_history
      · have hcond : ¬ ((s.history ++ [x]).length > s.max_history) := by
          simp only [List.length_append, List.length_singleton]; omega
        have hup : updateNow s x = { s with history := s.history ++ [x] } := by
          unfold updateNow; dsimp only; rw [if_neg hcond]
        rw [hup, ih { s with history := s.history ++ [x] } hm (by
          simp only [List.length_append, List.length_singleton]; omega)]
        dsimp only
        have e2 : (s.history ++ [x]).length + t.length - s.max_history
            = s.history.length + (x :: t).length - s.max_history := by
          simp only [List.length_append, List.length_singleton,
            List.length_cons, List.length_nil]
          omega
        rw [List.append_assoc, List.singleton_append, e2]
      · have hfull : s.history.length = s.max_history := by omega
        have hcond : (s.history ++ [x]).length > s.max_history := by
          simp only [List.length_append, List.length_singleton]; omega
        have hidx : (s.history ++ [x]).length - s.max_history = 1 := by
          simp only [List.length_append, List.length_singleton]; omega
        have hup : updateNow s x =
            { s with history := (s.history ++ [x]).drop 1 } := by
          unfold updateNow pySlidingSuffix
          dsimp only
          rw [if_pos hcond, if_neg (by omega), hidx]
        have hlen' : ((s.history ++ [x]).drop 1).length ≤ s.max_history := by
          simp only [List.length_drop, List.length_append,
            List.length_singleton]
          omega
        rw [hup,
          ih { s with history := (s.history ++ [x]).drop 1 } hm hlen']
        dsimp only
        have e0 : ((s.history ++ [x]).drop 1).length = s.max_history := by
          simp only [List.length_drop, List.length_append,
            List.length_singleton]
          omega
        rw [e0]
        have e1 : ((s.history ++ [x]) ++ t).drop 1
            = (s.history ++ [x]).drop 1 ++ t :=
          List.drop_append_of_le_length (by
            simp only [List.length_append, List.length_singleton,
              List.length_cons, List.length_nil]
            omega)
        rw [← e1, List.drop_drop]
        have e2 : (s.history ++ [x]) ++ t = s.history ++ x :: t := by simp
        have e3 : 1 + (s.max_history + t.length - s.max_history)
            = s.history.length + (x :: t).length - s.max_history := by
          simp only [List.length_cons]; omega
        rw [e2, e3]

/-- C1: For every sequence of `Update Now` appends (with
`max_history ≥ 1`, as guaranteed by the widget range `[10, 1000]`),
after each append the length of the stored history is at most
`max_history`. -/
theorem history_length_le_max (s : DashState) (samples : List MetricSample)
    (hm : 1 ≤ s.max_history) (hne : samples ≠ []) :
    (appendAll s samples).history.length ≤ s.max_history := by
  rcases (List.eq_nil_or_concat samples) with h | ⟨l, x, rfl⟩
  · exact absurd h hne
  · rw [List.concat_eq_append]
    have : appendAll s (l ++ [x]) = updateNow (appendAll s l) x := by
      unfold appendAll
      rw [List.foldl_append]
      rfl
    rw [this]
    have hmax := appendAll_max_history l s
    calc (updateNow (appendAll s l) x).history.length
        ≤ (appendAll s l).max_history :=
          updateNow_history_length_le _ _ (by omega)
      _ = s.max_history := hmax

/-- Witness for C1 at a concrete input. -/
theorem history_length_le_max_witness :
    1 ≤ (10 : ℕ) ∧
      (appendAll ⟨[], 10, 40, 7/2⟩ [mkS 1]).history.length ≤ 10 :=
  ⟨by decide,
    history_length_le_max ⟨[], 10, 40, 7/2⟩ [mkS 1] (by decide) (by simp)⟩

/-- C2: Eviction is FIFO and preserves chronological order: starting
from an empty history, after appending `samples` the store holds exactly
the most recent `max_history` entries in their original order (i.e. the
suffix obtained by dropping the oldest entries); in particular with
`max_history = 3`, appending `A, B, C, D` leaves `[B, C, D]`. -/
theorem eviction_fifo (m : ℕ) (tt vt : ℚ) (samples : List MetricSample)
    (hm : 1 ≤ m) :
    (appendAll ⟨[], m, tt, vt⟩ samples).history =
        samples.drop (samples.length - m) ∧
      ∀ A B C D : MetricSample,
        (appendAll ⟨[], 3, tt, vt⟩ [A, B, C, D]).history = [B, C, D] := by
  constructor
  · have h := appendAll_history_drop samples ⟨[], m, tt, vt⟩ hm (by simp)
    simpa using h
  · intro A B C D
    have h := appendAll_history_drop [A, B, C, D] ⟨[], 3, tt, vt⟩
      (by norm_num) (by simp)
    simpa using h

/-- Witness for C2 at a concrete input. -/
theorem eviction_fifo_witness :
    1 ≤ (3 : ℕ) ∧
      (appendAll ⟨[], 3, 40, 7/2⟩ [mkS 1, mkS 2, mkS 3, mkS 4]).history =
        [mkS 2, mkS 3, mkS 4] :=
  ⟨by decide,
    (eviction_fifo 3 40 (7/2) [mkS 1, mkS 2, mkS 3, mkS 4] (by decide)).2
      (mkS 1) (mkS 2) (mkS 3) (mkS 4)⟩

/-- An alert, abstracting the formatted strings built in the alerts loop
of `battery_dashboard.py` (lines 130-135): its kind (overheating or low
voltage), the 1-based cell number, and the offending reading. -/
inductive Alert
  | overheating (cell : ℕ) (temp : ℚ)
  | lowVoltage (cell : ℕ) (volt : ℚ)
deriving DecidableEq

/-- Loop body of the alerts loop (lines 131-135): for cell index `i`,
the temperature check first, then the voltage check, each appending to
the accumulated list. -/
def alertStep (temperatures voltages : List ℚ) (tempTh voltTh : ℚ)
    (acc : List Alert) (i : ℕ) : List Alert :=
  let acc1 :=
    if temperatures.getD i 0 > tempTh then
      acc ++ [Alert.overheating (i + 1) (temperatures.getD i 0)]
    else acc
  if voltages.getD i 0 < voltTh then
    acc1 ++ [Alert.lowVoltage (i + 1) (voltages.getD i 0)]
  else acc1

/-- The alerts loop of `battery_dashboard.py` (lines 130-135):
`for i in range(num_cells)` accumulating into `alert_msgs`. -/
def alert_msgs (num_cells : ℕ) (temperatures voltages : List ℚ)
    (tempTh voltTh : ℚ) : List Alert :=
  (List.range num_cells).foldl (alertStep temperatures voltages tempTh voltTh) []

/-- The alerts contributed by the single cell of index `i`: an
overheating alert iff its temperature strictly exceeds the threshold,
then a low-voltage alert iff its voltage is strictly below the
threshold, independently of each other. -/
def cellAlerts (temperatures voltages : List ℚ) (tempTh voltTh : ℚ)
    (i : ℕ) : List Alert :=
  (if temperatures.getD i 0 > tempTh then
      [Alert.overheating (i + 1) (temperatures.getD i 0)]
    else []) ++
  (if voltages.getD i 0 < voltTh then
      [Alert.lowVoltage (i + 1) (voltages.getD i 0)]
    else [])

/-- Test for an overheating alert naming cell number `c`. -/
def isOverheatFor (c : ℕ) : Alert → Bool
  | Alert.overheating c' _ => c' == c
  | _ => false

/-- Test for a low-voltage alert naming cell number `c`. -/
def isLowVoltFor (c : ℕ) : Alert → Bool
  | Alert.lowVoltage c' _ => c' == c
  | _ => false

lemma alertStep_eq_append (temperatures voltages : List ℚ)
    (tempTh voltTh : ℚ) (acc : List Alert) (i : ℕ) :
    alertStep temperatures voltages tempTh voltTh acc i
      = acc ++ cellAlerts temperatures voltages tempTh voltTh i := by
  unfold alertStep cellAlerts
  dsimp only
  split <;> split <;> simp

lemma foldl_alertStep (temperatures voltages : List ℚ) (tempTh voltTh : ℚ)
    (l : List ℕ) (acc : List Alert) :
    l.foldl (alertStep temperatures voltages tempTh voltTh) acc
      = acc ++ l.flatMap (cellAlerts temperatures voltages tempTh voltTh) := by
  induction l generalizing acc with
  | nil => simp
  | cons x t ih =>
      rw [List.foldl_cons, ih, alertStep_eq_append]
      simp

lemma alert_msgs_eq_flatMap (num_cells : ℕ) (temperatures voltages : List ℚ)
    (tempTh voltTh : ℚ) :
    alert_msgs num_cells temperatures voltages tempTh voltTh
      = (List.range num_cells).flatMap
          (cellAlerts temperatures voltages tempTh voltTh) := by
  unfold alert_msgs
  rw [foldl_alertStep]
  simp

lemma countP_flatMap (p : α → Bool) (f : β → List α) (l : List β) :
    ((l.flatMap f).countP p) = (l.map (fun b => (f b).countP p)).sum := by
  induction l with
  | nil => simp
  | cons x t ih => simp [List.flatMap_cons, List.countP_append, ih]

lemma sum_map_range_single (g : ℕ → ℕ) (n i : ℕ) (hi : i < n)
    (hz : ∀ j, j ≠ i → g j = 0) :
    ((List.range n).map g).sum = g i := by
  induction n with
  | zero => omega
  | succ m ih =>
      rw [List.range_succ, List.map_append, List.sum_append]
      by_cases hcase : i = m
      · subst hcase
        have : ((List.range i).map g).sum = 0 := by
          apply List.sum_eq_zero
          intro x hx
          simp only [List.mem_map, List.mem_range] at hx
          obtain ⟨j, hj, rfl⟩ := hx
          exact hz j (by omega)
        simp [this]
      · rw [ih (by omega)]
        have : g m = 0 := hz m (by omega)
        simp [this]

lemma countOverheat_cellAlerts (temperatures voltages : List ℚ)
    (tempTh voltTh : ℚ) (i j : ℕ) :
    (cellAlerts temperatures voltages tempTh voltTh j).countP
        (isOverheatFor (i + 1))
      = if j = i ∧ tempTh < temperatures.getD j 0 then 1 else 0 := by
  unfold cellAlerts
  generalize temperatures.getD j 0 = a
  generalize voltages.getD j 0 = b
  by_cases hj : j = i
  · subst hj
    by_cases ht : tempTh < a <;> by_cases hv : b < voltTh <;>
      simp [ht, hv, isOverheatFor, List.countP_cons, List.countP_append]
  · have hne : ((j + 1 : ℕ) == (i + 1 : ℕ)) = false := by
      simp only [beq_eq_false_iff_ne, ne_eq]
      omega
    by_cases ht : tempTh < a <;> by_cases hv : b < voltTh <;>
      simp [ht, hv, hj, hne, isOverheatFor, List.countP_cons,
        List.countP_append]

lemma countLowVolt_cellAlerts (temperatures voltages : List ℚ)
    (tempTh voltTh : ℚ) (i j : ℕ) :
    (cellAlerts temperatures voltages tempTh voltTh j).countP
        (isLowVoltFor (i + 1))
      = if j = i ∧ voltages.getD j 0 < voltTh then 1 else 0 := by
  unfold cellAlerts
  generalize temperatures.getD j 0 = a
  generalize voltages.getD j 0 = b
  by_cases hj : j = i
  · subst hj
    by_cases ht : tempTh < a <;> by_cases hv : b < voltTh <;>
      simp [ht, hv, isLowVoltFor, List.countP_cons, List.countP_append]
  · have hne : ((j + 1 : ℕ) == (i + 1 : ℕ)) = false := by
      simp only [beq_eq_false_iff_ne, ne_eq]
      omega
    by_cases ht : tempTh < a <;> by_cases hv : b < voltTh <;>
      simp [ht, hv, hj, hne, isLowVoltFor, List.countP_cons,
        List.countP_append]

/-- C3: The alerts loop visits cells in ascending index order, testing
temperature before voltage for each cell, and emits exactly one
overheating alert for each cell whose temperature is strictly above
`temp_threshold` and exactly one low-voltage alert for each cell whose
voltage is strictly below `volt_threshold`, independently; equality with
a threshold never alerts, so with 3 cells, `temp_threshold = 40`,
temperatures `[41.0, 39.9, 40.0]` (and no cell below the voltage
threshold) the list contains exactly the overheating alert of cell 1. -/
theorem evaluate_alerts (n : ℕ) (temperatures voltages : List ℚ)
    (tempTh voltTh : ℚ) :
    alert_msgs n temperatures voltages tempTh voltTh
        = (List.range n).flatMap
            (cellAlerts temperatures voltages tempTh voltTh) ∧
      (∀ i, i < n →
        (alert_msgs n temperatures voltages tempTh voltTh).countP
            (isOverheatFor (i + 1))
          = if tempTh < temperatures.getD i 0 then 1 else 0) ∧
      (∀ i, i < n →
        (alert_msgs n temperatures voltages tempTh voltTh).countP
            (isLowVoltFor (i + 1))
          = if voltages.getD i 0 < voltTh then 1 else 0) ∧
      alert_msgs 3 [41, 399/10, 40] [4, 4, 4] 40 (7/2)
        = [Alert.overheating 1 41] := by
  refine ⟨alert_msgs_eq_flatMap n temperatures voltages tempTh voltTh,
    ?_, ?_, by
      rw [alert_msgs_eq_flatMap]
      norm_num [List.range_succ, cellAlerts]⟩
  · intro i hi
    rw [alert_msgs_eq_flatMap, countP_flatMap]
    rw [sum_map_range_single _ n i hi (by
      intro j hj
      rw [countOverheat_cellAlerts, if_neg (by tauto)])]
    rw [countOverheat_cellAlerts]
    by_cases ht : tempTh < temperatures.getD i 0 <;> simp [ht]
  · intro i hi
    rw [alert_msgs_eq_flatMap, countP_flatMap]
    rw [sum_map_range_single _ n i hi (by
      intro j hj
      rw [countLowVolt_cellAlerts, if_neg (by tauto)])]
    rw [countLowVolt_cellAlerts]
    by_cases hv : voltages.getD i 0 < voltTh <;> simp [hv]

/-- Witness for C3 at a concrete input. -/
theorem evaluate_alerts_witness :
    (alert_msgs 3 [41, 399/10, 40] [4, 4, 4] 40 (7/2)).countP
        (isOverheatFor (0 + 1))
      = if (40 : ℚ) < ([41, 399/10, 40] : List ℚ).getD 0 0 then 1 else 0 :=
  (evaluate_alerts 3 [41, 399/10, 40] [4, 4, 4] 40 (7/2)).2.1 0
    (by norm_num)

/-- The three Summary Metrics of `battery_dashboard.py` (lines 164-170). -/
structure Summary where
  avg_voltage : ℚ
  avg_temperature : ℚ
  avg_capacity : ℚ
deriving DecidableEq

/-- Summary Metrics computation of lines 164-170:
`sum(voltages)/num_cells`, `sum(temperatures)/num_cells`,
`sum(capacities)/num_cells`. -/
def summaryMetrics (num_cells : ℕ)
    (voltages temperatures capacities : List ℚ) : Summary :=
  { avg_voltage := voltages.sum / num_cells
    avg_temperature := temperatures.sum / num_cells
    avg_capacity := capacities.sum / num_cells }

lemma const_sum_div (l : List ℚ) (n : ℕ) (v : ℚ) (hl : l.length = n)
    (hn : 0 < n) (h : ∀ x ∈ l, x = v) : l.sum / (n : ℚ) = v := by
  have hrep : l = List.replicate n v := List.eq_replicate_iff.mpr ⟨hl, h⟩
  rw [hrep, List.sum_replicate, nsmul_eq_mul, mul_div_cancel_left₀]
  exact_mod_cast hn.ne'

/-- C6: For a sample with `n ≥ 1` cells, the Summary Metrics are the
arithmetic means of voltage, temperature and capacity over the `n`
cells; in particular when every cell carries the identical value `v` in
all three metrics, all three averages equal `v`. -/
theorem aggregate_mean (n : ℕ) (voltages temperatures capacities : List ℚ)
    (v : ℚ) (hn : 0 < n) (hv : voltages.length = n)
    (ht : temperatures.length = n) (hc : capacities.length = n) :
    (summaryMetrics n voltages temperatures capacities).avg_voltage
        = voltages.sum / voltages.length ∧
      (summaryMetrics n voltages temperatures capacities).avg_temperature
        = temperatures.sum / temperatures.length ∧
      (summaryMetrics n voltages temperatures capacities).avg_capacity
        = capacities.sum / capacities.length ∧
      ((∀ x ∈ voltages, x = v) → (∀ x ∈ temperatures, x = v) →
        (∀ x ∈ capacities, x = v) →
        summaryMetrics n voltages temperatures capacities = ⟨v, v, v⟩) := by
  refine ⟨by rw [hv]; rfl, by rw [ht]; rfl, by rw [hc]; rfl, ?_⟩
  intro h1 h2 h3
  unfold summaryMetrics
  rw [const_sum_div voltages n v hv hn h1,
    const_sum_div temperatures n v ht hn h2,
    const_sum_div capacities n v hc hn h3]

/-- Witness for C6 at a concrete input. -/
theorem aggregate_mean_witness :
    summaryMetrics 2 [5, 5] [5, 5] [5, 5] = ⟨5, 5, 5⟩ :=
  (aggregate_mean 2 [5, 5] [5, 5] [5, 5] 5 (by norm_num) rfl rfl
      rfl).2.2.2
    (by simp) (by simp) (by simp)

/-- The Clear History button of `battery_dashboard.py` (lines 194-196):
`st.session_state.history = []`, touching nothing else. -/
def clearHistory (s : DashState) : DashState :=
  { s with history := [] }

/-- C7: Clearing the history empties the store and changes nothing
else: `max_history` and the two alert thresholds keep their prior
values. -/
theorem clear_frame (s : DashState) :
    (clearHistory s).history = [] ∧
      (clearHistory s).max_history = s.max_history ∧
      (clearHistory s).temp_threshold = s.temp_threshold ∧
      (clearHistory s).volt_threshold = s.volt_threshold :=
  ⟨rfl, rfl, rfl, rfl⟩

/-- The Max History Length widget of `battery_dashboard.py` (line 193):
a `number_input` with bounds `[10, 1000]` bound to
`st.session_state.max_history`.  The script rerun it triggers changes
only `max_history`; the history itself is trimmed only inside the
`Update Now` branch, i.e. at the next append. -/
def setCapacity (s : DashState) (n : ℕ) : DashState :=
  { s with max_history := max 10 (min 1000 n) }

/-- C4 counterexample: with 11 entries in the history, lowering the
capacity to 10 does not evict anything — the length stays 11, not 10 as
the claim's immediate eviction would require. -/
theorem set_capacity_no_immediate_evict_cex :
    (setCapacity ⟨List.replicate 11 (mkS 0), 100, 40, 7/2⟩ 10).history.length
        = 11 ∧
      ¬ (setCapacity ⟨List.replicate 11 (mkS 0), 100, 40, 7/2⟩
          10).history.length = 10 ∧
      (setCapacity ⟨List.replicate 11 (mkS 0), 100, 40, 7/2⟩
          10).max_history = 10 := by
  refine ⟨?_, ?_, ?_⟩ <;> simp [setCapacity]

/-- C4 (amended): changing the Max History Length to `n` clamps the new
capacity into `[10, 1000]` and leaves the history itself untouched
(no immediate eviction); the excess entries are evicted only by the next
append, after which the length is at most the new capacity. -/
theorem set_capacity_amended (s : DashState) (n : ℕ) (x : MetricSample) :
    (setCapacity s n).max_history = max 10 (min 1000 n) ∧
      10 ≤ (setCapacity s n).max_history ∧
      (setCapacity s n).max_history ≤ 1000 ∧
      (setCapacity s n).history = s.history ∧
      (updateNow (setCapacity s n) x).history.length
        ≤ max 10 (min 1000 n) := by
  refine ⟨rfl, by simp [setCapacity], by simp [setCapacity],
    rfl, ?_⟩
  exact updateNow_history_length_le (setCapacity s n) x
    (by simp [setCapacity])

end BatteryDashboard

namespace Battery2

/-- Cell chemistry in `battery2.py`, chosen per cell in the sidebar
(line 46): `"lfp"` or `"nmc"`. -/
inductive CellType
  | lfp
  | nmc
deriving DecidableEq

/-- Fixed initial voltage of `cells_data` (`battery2.py` line 53):
`3.2 if cell_type == "lfp" else 3.6`. -/
def voltage : CellType → ℚ
  | CellType.lfp => 3.2
  | CellType.nmc => 3.6

/-- Lower voltage bound (line 54): `2.8 if lfp else 3.2`. -/
def min_voltage : CellType → ℚ
  | CellType.lfp => 2.8
  | CellType.nmc => 3.2

/-- Upper voltage bound (line 55): `3.6 if lfp else 4.0`. -/
def max_voltage : CellType → ℚ
  | CellType.lfp => 3.6
  | CellType.nmc => 4.0

/-- `charge_percent` of `battery2.py` line 77:
`(voltage - min_voltage) / (max_voltage - min_voltage) * 100`. -/
def charge_percent (t : CellType) : ℚ :=
  (voltage t - min_voltage t) / (max_voltage t - min_voltage t) * 100

/-- C10: For either cell type the displayed charge percentage is exactly
50%, because each type's fixed initial voltage is the midpoint of its
fixed bounds (lfp: 3.2 in [2.8, 3.6]; nmc: 3.6 in [3.2, 4.0]), over
exact rational arithmetic. -/
theorem charge_percent_fifty (t : CellType) : charge_percent t = 50 := by
  cases t <;>
    norm_num [charge_percent, voltage, min_voltage, max_voltage]

/-- One synthetic reading for one tick, as drawn in `battery2.py` lines
124-126 (voltage, current, temperature); modelled as an injected data
source indexed by the tick. -/
structure Reading where
  voltage : ℚ
  current : ℚ
  temp : ℚ
deriving DecidableEq

/-- The per-run series of the Start Simulation loop (line 118):
`voltages, currents, temps, times = [], [], [], []`. -/
structure SimSeries where
  voltages : List ℚ
  currents : List ℚ
  temps : List ℚ
  times : List ℕ
deriving DecidableEq

/-- Body of the tick loop (lines 123-131): pull one reading from the
data source and append each component, and the tick index `t`, to the
series. -/
def simTick (ds : ℕ → Reading) (st : SimSeries) (t : ℕ) : SimSeries :=
  { voltages := st.voltages ++ [(ds t).voltage]
    currents := st.currents ++ [(ds t).current]
    temps := st.temps ++ [(ds t).temp]
    times := st.times ++ [t] }

/-- The Start Simulation tick loop `for t in range(...)` of
`battery2.py` line 123 (the source instantiates the tick count to 100),
starting from fresh empty series on each invocation. -/
def runSimulation (tick_count : ℕ) (ds : ℕ → Reading) : SimSeries :=
  (List.range tick_count).foldl (simTick ds) ⟨[], [], [], []⟩

lemma foldl_simTick (ds : ℕ → Reading) (l : List ℕ) (st : SimSeries) :
    l.foldl (simTick ds) st =
      ⟨st.voltages ++ l.map (fun t => (ds t).voltage),
        st.currents ++ l.map (fun t => (ds t).current),
        st.temps ++ l.map (fun t => (ds t).temp),
        st.times ++ l⟩ := by
  induction l generalizing st with
  | nil => simp
  | cons x t ih =>
      rw [List.foldl_cons, ih]
      simp [simTick]

/-- C8: For every tick count `n`, the simulation loop produces exactly
`n` ticks: the recorded tick indices are `0, 1, ..., n-1` in increasing
order, each series holds exactly the `n` per-tick readings in tick
order, and each tick appends exactly one reading (the run of `k + 1`
ticks is the run of `k` ticks extended by the single tick `k`). -/
theorem run_produces_ticks (n : ℕ) (ds : ℕ → Reading) :
    (runSimulation n ds).times = List.range n ∧
      (runSimulation n ds).voltages
        = (List.range n).map (fun t => (ds t).voltage) ∧
      (runSimulation n ds).currents
        = (List.range n).map (fun t => (ds t).current) ∧
      (runSimulation n ds).temps
        = (List.range n).map (fun t => (ds t).temp) ∧
      (runSimulation n ds).times.length = n ∧
      ∀ k, runSimulation (k + 1) ds = simTick ds (runSimulation k ds) k := by
  refine ⟨?_, ?_, ?_, ?_, ?_, ?_⟩
  · rw [runSimulation, foldl_simTick]; simp
  · rw [runSimulation, foldl_simTick]; simp
  · rw [runSimulation, foldl_simTick]; simp
  · rw [runSimulation, foldl_simTick]; simp
  · rw [runSimulation, foldl_simTick]; simp
  · intro k
    rw [runSimulation, runSimulation, List.range_succ, List.foldl_append,
      List.foldl_cons, List.foldl_nil]

/-- Type tags of the three task variants (`battery2.py` line 88). -/
inductive TaskType
  | CC_CV
  | IDLE
  | CC_CD
deriving DecidableEq

/-- A configured task: the tagged-variant rendering of the task dicts
built in `battery2.py` lines 92-113, each variant carrying only its own
fields, with `time_seconds` the declared duration. -/
inductive Task
  | CC_CV (cc_cp : String) (cv_voltage current capacity time_seconds : ℚ)
  | IDLE (time_seconds : ℚ)
  | CC_CD (cc_cp : String) (voltage capacity time_seconds : ℚ)
deriving DecidableEq

/-- The variant tag of a task. -/
def Task.ttype : Task → TaskType
  | Task.CC_CV .. => TaskType.CC_CV
  | Task.IDLE .. => TaskType.IDLE
  | Task.CC_CD .. => TaskType.CC_CD

/-- The declared duration (`time_seconds`) of a task. -/
def Task.duration : Task → ℚ
  | Task.CC_CV _ _ _ _ d => d
  | Task.IDLE d => d
  | Task.CC_CD _ _ _ d => d

/-- A task-log entry {task index, type, start timestamp, end timestamp};
`stop` stands for the end timestamp. -/
structure TaskLogEntry where
  index : ℕ
  ttype : TaskType
  start : ℚ
  stop : ℚ
deriving DecidableEq

/-- Modelled from the spec: the TaskSequencer execution (spec section
4.4) is absent from the source — `battery2.py` builds `task_list`
(lines 90-113) but the Start Simulation loop never runs it and no task
log is produced anywhere.  Following the spec's words: tasks run
strictly in list order, one at a time; a task's start timestamp is
recorded at its Pending-to-Running transition and its end timestamp
`duration` seconds later at Running-to-Completed, the next task starting
where the previous one ended.  `runTasksFrom i t` logs the tasks with
indices from `i` and clock from `t`. -/
def runTasksFrom : ℕ → ℚ → List Task → List TaskLogEntry
  | _, _, [] => []
  | i, t, task :: rest =>
      ⟨i, task.ttype, t, t + task.duration⟩ ::
        runTasksFrom (i + 1) (t + task.duration) rest

/-- Modelled from the spec: run the whole configured task list from time
`t0`, producing the timed execution log. -/
def runTasks (tasks : List Task) (t0 : ℚ) : List TaskLogEntry :=
  runTasksFrom 0 t0 tasks

lemma runTasksFrom_length (tasks : List Task) (i : ℕ) (t : ℚ) :
    (runTasksFrom i t tasks).length = tasks.length := by
  induction tasks generalizing i t with
  | nil => rfl
  | cons task rest ih => simp [runTasksFrom, ih]

lemma runTasksFrom_map_ttype (tasks : List Task) (i : ℕ) (t : ℚ) :
    (runTasksFrom i t tasks).map TaskLogEntry.ttype
      = tasks.map Task.ttype := by
  induction tasks generalizing i t with
  | nil => rfl
  | cons task rest ih => simp [runTasksFrom, ih]

lemma runTasksFrom_map_index (tasks : List Task) (i : ℕ) (t : ℚ) :
    (runTasksFrom i t tasks).map TaskLogEntry.index
      = List.range' i tasks.length := by
  induction tasks generalizing i t with
  | nil => rfl
  | cons task rest ih => simp [runTasksFrom, ih, List.range']

lemma runTasksFrom_start_le_stop (tasks : List Task) (i : ℕ) (t : ℚ)
    (hd : ∀ task ∈ tasks, 0 ≤ task.duration) :
    ∀ e ∈ runTasksFrom i t tasks, e.start ≤ e.stop := by
  induction tasks generalizing i t with
  | nil => intro e he; cases he
  | cons task rest ih =>
      intro e he
      rcases List.mem_cons.mp he with rfl | hmem
      · have := hd task (List.mem_cons_self task rest)
        dsimp only
        linarith
      · exact ih (i + 1) (t + task.duration)
          (fun u hu => hd u (List.mem_cons_of_mem task hu)) e hmem

/-- C5: The (spec-modelled) TaskSequencer executes the configured tasks
strictly in input-list order: the log has one entry per task, entry `k`
carries index `k` and the type of task `k`, and every entry's end
timestamp is at least its start timestamp (durations are nonnegative,
the sliders confining them to `[5, 60]`). -/
theorem task_sequencer_log (tasks : List Task) (t0 : ℚ)
    (hd : ∀ task ∈ tasks, 0 ≤ task.duration) :
    (runTasks tasks t0).length = tasks.length ∧
      (runTasks tasks t0).map TaskLogEntry.ttype = tasks.map Task.ttype ∧
      (runTasks tasks t0).map TaskLogEntry.index
        = List.range tasks.length ∧
      ∀ e ∈ runTasks tasks t0, e.start ≤ e.stop := by
  refine ⟨runTasksFrom_length tasks 0 t0,
    runTasksFrom_map_ttype tasks 0 t0, ?_,
    runTasksFrom_start_le_stop tasks 0 t0 hd⟩
  rw [runTasks, runTasksFrom_map_index tasks 0 t0, List.range_eq_range']

/-- Witness for C5 at a concrete input: the spec scenario
`[IDLE(duration=5), CC_CV(duration=10)]`. -/
theorem task_sequencer_log_witness :
    (runTasks [Task.IDLE 5, Task.CC_CV "5A" 4.2 2 30 10] 0).length = 2 :=
  (task_sequencer_log [Task.IDLE 5, Task.CC_CV "5A" 4.2 2 30 10] 0
    (by rintro task h; fin_cases h <;> norm_num [Task.duration])).1

end Battery2

namespace BatteryDashboard

/-- A store of mutable Python list objects with element type `α`; a
"reference" held by the caller is an index into the store. -/
def Heap (α : Type) : Type :=
  List (List α)

/-- Dereference: the current contents of the list object that `r`
points to. -/
def readRef (h : Heap α) (r : ℕ) : List α :=
  h.getD r []

/-- In-place mutation of the list object that `r` points to (any later
`voltages[k] = ...`, `voltages.append(...)`, etc. on the caller's
list). -/
def writeRef (h : Heap α) (r : ℕ) (v : List α) : Heap α :=
  h.set r v

/-- The history entry built by the append of `battery_dashboard.py`
lines 111-118: each stored reading list is a `.copy()` of the sidebar
list, so the entry holds the dereferenced values at append time, not the
references. -/
def sampleOfRefs (hq : Heap ℚ) (hmo : Heap Mode) (ts : ℚ)
    (rv rc rt rcap rm : ℕ) : MetricSample :=
  { timestamp := ts
    voltages := readRef hq rv
    currents := readRef hq rc
    temperatures := readRef hq rt
    capacities := readRef hq rcap
    modes := readRef hmo rm }

/-- C9: A sample is immutable once appended: the append stores copies of
the caller's per-cell lists, so mutating the caller's voltage list after
the append leaves the entry already in the history exactly as read at
append time, while a sample appended after the mutation sees the new
contents.  (Here `max_history ≥ 2` so neither append trims, and the
mutated reference is a live list object, `rv < hq.length`.) -/
theorem sample_immutable (hq : Heap ℚ) (hmo : Heap Mode) (ts ts' : ℚ)
    (rv rc rt rcap rm : ℕ) (w : List ℚ) (m : ℕ) (tt vt : ℚ)
    (hm2 : 2 ≤ m) (hrv : rv < hq.length) :
    (updateNow (updateNow ⟨[], m, tt, vt⟩
          (sampleOfRefs hq hmo ts rv rc rt rcap rm))
        (sampleOfRefs (writeRef hq rv w) hmo ts' rv rc rt rcap rm)).history
        = [sampleOfRefs hq hmo ts rv rc rt rcap rm,
            sampleOfRefs (writeRef hq rv w) hmo ts' rv rc rt rcap rm] ∧
      (sampleOfRefs hq hmo ts rv rc rt rcap rm).voltages = readRef hq rv ∧
      (sampleOfRefs (writeRef hq rv w) hmo ts' rv rc rt rcap rm).voltages
        = w := by
  refine ⟨?_, rfl, ?_⟩
  · have e1 : updateNow ⟨[], m, tt, vt⟩
        (sampleOfRefs hq hmo ts rv rc rt rcap rm)
        = ⟨[sampleOfRefs hq hmo ts rv rc rt rcap rm], m, tt, vt⟩ := by
      unfold updateNow
      dsimp only
      rw [if_neg (by simp; omega)]
      simp
    rw [e1]
    have e2 : updateNow ⟨[sampleOfRefs hq hmo ts rv rc rt rcap rm], m, tt, vt⟩
        (sampleOfRefs (writeRef hq rv w) hmo ts' rv rc rt rcap rm)
        = ⟨[sampleOfRefs hq hmo ts rv rc rt rcap rm,
            sampleOfRefs (writeRef hq rv w) hmo ts' rv rc rt rcap rm],
            m, tt, vt⟩ := by
      unfold updateNow
      dsimp only
      rw [if_neg (by simp; omega)]
      simp
    rw [e2]
  · unfold sampleOfRefs readRef writeRef
    dsimp only
    rw [List.getD_eq_getElem?_getD, List.getElem?_set_self]
    · rfl
    · omega

/-- Witness for C9 at a concrete input: one list object `[3, 7/2]` is
appended (copied), then mutated to `[0, 0]`; the stored entry still
holds `[3, 7/2]`. -/
theorem sample_immutable_witness :
    (updateNow (updateNow ⟨[], 100, 40, 7/2⟩
          (sampleOfRefs [[3, 7/2]] [[Mode.Idle]] 1 0 0 0 0 0))
        (sampleOfRefs (writeRef [[3, 7/2]] 0 [0, 0]) [[Mode.Idle]] 2
          0 0 0 0 0)).history
      = [sampleOfRefs [[3, 7/2]] [[Mode.Idle]] 1 0 0 0 0 0,
          sampleOfRefs (writeRef [[3, 7/2]] 0 [0, 0]) [[Mode.Idle]] 2
            0 0 0 0 0] :=
  (sample_immutable [[3, 7/2]] [[Mode.Idle]] 1 2 0 0 0 0 0 [0, 0] 100
    40 (7/2) (by norm_num) (by norm_num)).1

end BatteryDashboard
